import Mathlib

/-!
Shallow embedding of the MiniECS storage/query engine (`src/ECS/ECS.h`) and
proofs about it.

Modelling conventions:
* `EntityID` is a 64-bit value modelled as `Nat`; the 32-bit `EntityIndex` /
  `EntityVersion` conversions of the source are made explicit with `% 2 ^ 32`.
* `std::bitset<MAX_COMPONENTS>` (the per-slot component presence mask) is
  modelled as a `Finset Nat` of the set bit positions; `set`/`reset`/`test`/
  `operator&`/`operator==` become `insert`/`erase`/membership/`∩`/equality.
* A `ComponentPool*` entry of `m_componentPools` is modelled by a `Bool`
  (`true` = a pool has been allocated, i.e. the pointer is non-null).  The
  claims under study only depend on whether pointers returned by
  `Assign`/`Get` are null, never on the stored bytes, so a returned
  pointer is modelled as `Option Unit` (`none` = `nullptr`).
* `std::vector` used as a stack (`m_freeEntities`, via `push_back`/`back`/
  `pop_back`) is modelled as a `List` whose head is the vector's back.
* Component types are identified by their `GetId<T>` value (a `Nat`), which is
  how the `World` code consumes them.
-/

namespace ECS

/-- Maximum number of distinct component types (`MAX_COMPONENTS`), the width
of the presence bitmask. -/
def MAX_COMPONENTS : Nat := 64

/-- Maximum number of entities (`MAX_ENTITIES`). -/
def MAX_ENTITIES : Nat := 1000000

/-- Source `CreateEntityId`: `((EntityID)index << 32) | ((EntityID)version)`.  Both
arguments pass through 32-bit types (`EntityIndex`/`EntityVersion`), hence the
`% 2 ^ 32`; the shifted index and the version occupy disjoint bit ranges, so
the bitwise or is addition. -/
def CreateEntityId (index version : Nat) : Nat :=
  index % 2 ^ 32 * 2 ^ 32 + version % 2 ^ 32

/-- Source `GetEntityIndex`: `id >> 32`, converted to the 32-bit `EntityIndex`
return type. -/
def GetEntityIndex (id : Nat) : Nat :=
  id / 2 ^ 32 % 2 ^ 32

/-- Source `GetEntityVersion`: `(EntityVersion)id`, truncation to the low 32 bits. -/
def GetEntityVersion (id : Nat) : Nat :=
  id % 2 ^ 32

/-- Source `IsEntityValid`: `(id >> 32) != EntityIndex(-1)`; `EntityIndex(-1)` is
`2 ^ 32 - 1`. -/
def IsEntityValid (id : Nat) : Bool :=
  id / 2 ^ 32 != 2 ^ 32 - 1

/-- One row of the entity table: the slot's current handle and its component
presence mask (`World::EntityDesc`). -/
structure EntityDesc where
  m_id : Nat
  m_mask : Finset Nat
deriving DecidableEq

instance : Inhabited EntityDesc := ⟨⟨0, ∅⟩⟩

/-- The `World`: entity table, free-slot stack and component pool registry. -/
structure World where
  m_entities : List EntityDesc
  m_freeEntities : List Nat
  m_componentPools : List Bool
deriving DecidableEq

/-- The `World()` default constructor: all containers empty. -/
def World.empty : World := ⟨[], [], []⟩

/-- Access `m_entities[i]` (out-of-range access in the source is undefined
behaviour; the default value here is only ever relied on under in-bounds
hypotheses). -/
def World.desc (w : World) (i : Nat) : EntityDesc :=
  w.m_entities.getD i default

/-- Source `World::NewEntity`.  If the free stack is non-empty, pop an index and
re-encode that slot's handle with the slot's stored version; otherwise append
a fresh slot with index `m_entities.size()` (truncated to `EntityIndex`) and
version 0.  Returns the new handle together with the updated world. -/
def World.NewEntity (w : World) : Nat × World :=
  match w.m_freeEntities with
  | newIndex :: rest =>
    let newID := CreateEntityId newIndex (GetEntityVersion (w.desc newIndex).m_id)
    (newID,
      { w with
        m_entities := w.m_entities.set newIndex ⟨newID, (w.desc newIndex).m_mask⟩,
        m_freeEntities := rest })
  | [] =>
    let newID := CreateEntityId w.m_entities.length 0
    (newID, { w with m_entities := w.m_entities ++ [⟨newID, ∅⟩] })

/-- Source `World::DestroyEntity`.  Stores `(EntityIndex(-1), version(id) + 1)` in
the slot addressed by `id`'s index, clears that slot's mask, and pushes
`GetEntityIndex(GetEntityIndex(id))` (the double application is literal
source code) onto the free stack.  The `+ 1` on the 32-bit version wraps; the
wrap is performed by the `% 2 ^ 32` inside `CreateEntityId`. -/
def World.DestroyEntity (w : World) (id : Nat) : World :=
  let newID := CreateEntityId (2 ^ 32 - 1) (GetEntityVersion id + 1)
  { w with
    m_entities := w.m_entities.set (GetEntityIndex id) ⟨newID, ∅⟩,
    m_freeEntities := GetEntityIndex (GetEntityIndex id) :: w.m_freeEntities }

/-- The `resize(componentId + 1, nullptr)` call on the pool registry, performed when
`componentId >= m_componentPools.size()`. -/
def resizePools (pools : List Bool) (componentId : Nat) : List Bool :=
  if pools.length ≤ componentId then
    pools ++ List.replicate (componentId + 1 - pools.length) false
  else pools

/-- The pool registry after `Assign`'s bookkeeping: resize if
`componentId` is out of range, then allocate a pool (`true`) at
`componentId` if the entry is still null. -/
def poolsAfter (pools : List Bool) (componentId : Nat) : List Bool :=
  if (resizePools pools componentId).getD componentId false = true then
    resizePools pools componentId
  else (resizePools pools componentId).set componentId true

/-- Source `World::Assign<T>`, with `T` represented by `componentId = GetId<T>()`.
Rejects the handle if the slot's stored id differs (returning `nullptr`,
before any pool bookkeeping); otherwise grows the pool registry if needed,
allocates the pool if absent, constructs the component (placement new always
yields a non-null pointer, `some ()`) and sets the slot's mask bit. -/
def World.Assign (w : World) (componentId : Nat) (id : Nat) : Option Unit × World :=
  if (w.desc (GetEntityIndex id)).m_id ≠ id then (none, w)
  else
    (some (),
      { w with
        m_componentPools := poolsAfter w.m_componentPools componentId,
        m_entities := w.m_entities.set (GetEntityIndex id)
          ⟨(w.desc (GetEntityIndex id)).m_id,
            insert componentId (w.desc (GetEntityIndex id)).m_mask⟩ })

/-- Source `World::Remove<T>`.  Returns with no change when the slot's stored id
differs from `id` (the freshness check at the top of the function); otherwise
clears the mask bit for `componentId`. -/
def World.Remove (w : World) (componentId : Nat) (id : Nat) : World :=
  if (w.desc (GetEntityIndex id)).m_id ≠ id then w
  else
    { w with
      m_entities := w.m_entities.set (GetEntityIndex id)
        ⟨(w.desc (GetEntityIndex id)).m_id,
          (w.desc (GetEntityIndex id)).m_mask.erase componentId⟩ }

/-- Source `World::Get<T>`: `nullptr` when the mask bit is unset; otherwise a
pointer into the pool when the registry holds a non-null pool for
`componentId`, and `nullptr` when it does not. -/
def World.Get (w : World) (componentId : Nat) (id : Nat) : Option Unit :=
  if componentId ∉ (w.desc (GetEntityIndex id)).m_mask then none
  else if componentId < w.m_componentPools.length ∧
      w.m_componentPools.getD componentId false then some () else none

/-- Source `World::Has<T>`: `!(Get<T>(id) == nullptr)`. -/
def World.Has (w : World) (componentId : Nat) (id : Nat) : Bool :=
  !(w.Get componentId id == none)

/-- Iterator state of `RosterView<ComponentTypes...>`: current index, target
mask and the match-everything flag.  The world pointer `m_rosterPtr` is passed
separately to each operation. -/
structure RosterView where
  m_index : Nat
  m_componentMask : Finset Nat
  m_all : Bool
deriving DecidableEq

/-- The `RosterView(World&)` constructor, with the template parameter pack
represented by the list `S = [GetId<T1>(), ..., GetId<Tn>()]`.  For an empty
pack it sets `m_all`; otherwise it sets one mask bit for every entry of the
array `componentIds[] = { 0, GetId<ComponentTypes>()... }` — including the
leading literal `0` used to keep the array non-empty. -/
def mkRosterView (S : List Nat) : RosterView :=
  if S = [] then ⟨0, ∅, true⟩
  else ⟨0, (0 :: S).foldl (fun m componentId => insert componentId m) ∅, false⟩

/-- Source `RosterView::ValidIndex`, evaluated at the view's current index. -/
def RosterView.ValidIndex (v : RosterView) (w : World) : Bool :=
  IsEntityValid (w.desc v.m_index).m_id &&
    (v.m_all || decide (v.m_componentMask = v.m_componentMask ∩ (w.desc v.m_index).m_mask))

/-- The `do { m_index++; } while (m_index < size && !ValidIndex())` loop of
`operator++`, written with explicit fuel (the loop advances at most
`size` times; every caller passes fuel `size + 1`). -/
def incScanF (w : World) (v : RosterView) : Nat → Nat → Nat
  | 0, i => i
  | fuel + 1, i =>
    if i < w.m_entities.length ∧ ¬ (RosterView.ValidIndex { v with m_index := i } w) then
      incScanF w v fuel (i + 1)
    else i

/-- Source `RosterView::operator++`. -/
def RosterView.inc (v : RosterView) (w : World) : RosterView :=
  { v with m_index := incScanF w v (w.m_entities.length + 1) (v.m_index + 1) }

/-- The scan of `RosterView::begin`: advance `firstIndex` while it is in range
and the slot either fails the mask test or holds an invalid handle. -/
def beginScanF (w : World) (mask : Finset Nat) : Nat → Nat → Nat
  | 0, i => i
  | fuel + 1, i =>
    if i < w.m_entities.length ∧
        (mask ≠ mask ∩ (w.desc i).m_mask ∨ ¬ IsEntityValid (w.desc i).m_id) then
      beginScanF w mask fuel (i + 1)
    else i

/-- Source `RosterView::begin`: a view positioned at the first qualifying index
(the private constructor keeps the mask and the `m_all` flag). -/
def RosterView.begin (v : RosterView) (w : World) : RosterView :=
  { v with m_index := beginScanF w v.m_componentMask (w.m_entities.length + 1) 0 }

/-- Source `RosterView::end`: a view positioned at `EntityIndex(size)` (the
`size_t` table length truncated to the 32-bit `EntityIndex`). -/
def RosterView.endIter (v : RosterView) (w : World) : RosterView :=
  { v with m_index := w.m_entities.length % 2 ^ 32 }

/-- Source `RosterView::operator!=`:
`m_index != other.m_index && m_index != m_rosterPtr->All().size()`. -/
def RosterView.ne (v other : RosterView) (w : World) : Bool :=
  v.m_index != other.m_index && v.m_index != w.m_entities.length

/-- Source `RosterView::operator*`: the handle stored at the current index. -/
def RosterView.deref (v : RosterView) (w : World) : Nat :=
  (w.desc v.m_index).m_id

/-- The ranged-for loop `for (auto entity : view)` recorded by iterator
position: starting from `v` (already positioned by `begin`), while
`it != end` yield `m_index`, then `++it`.  Fuel-indexed; every caller passes
fuel `size + 1`, which covers a full traversal. -/
def traverseLoopF (w : World) : Nat → RosterView → List Nat
  | 0, _ => []
  | fuel + 1, v =>
    if v.ne (v.endIter w) w then v.m_index :: traverseLoopF w fuel (v.inc w)
    else []

/-- The same ranged-for loop recorded by yielded value `*it`. -/
def derefLoopF (w : World) : Nat → RosterView → List Nat
  | 0, _ => []
  | fuel + 1, v =>
    if v.ne (v.endIter w) w then v.deref w :: derefLoopF w fuel (v.inc w)
    else []

/-- Full traversal of a freshly constructed view: the sequence of iterator
positions (slot indices) visited. -/
def RosterView.traverseIdx (v : RosterView) (w : World) : List Nat :=
  traverseLoopF w (w.m_entities.length + 1) (v.begin w)

/-- Full traversal of a freshly constructed view: the sequence of entity
handles yielded by `operator*`. -/
def RosterView.traverse (v : RosterView) (w : World) : List Nat :=
  derefLoopF w (w.m_entities.length + 1) (v.begin w)

/-! Operation traces.  The API calls a host program can make against a
`World`, used to state history-dependent claims. -/

/-- One `World` API call (component types represented by their ids). -/
inductive Op where
  | newE : Op
  | destroyE : Nat → Op
  | assignC : Nat → Nat → Op
  | removeC : Nat → Nat → Op
deriving DecidableEq

/-- Effect of one call on the world. -/
def stepW (w : World) : Op → World
  | .newE => (w.NewEntity).2
  | .destroyE id => w.DestroyEntity id
  | .assignC componentId id => (w.Assign componentId id).2
  | .removeC componentId id => w.Remove componentId id

/-- Run a trace of calls, in order, from `w`. -/
def execFrom (w : World) : List Op → World
  | [] => w
  | op :: ops => execFrom (stepW w op) ops

/-- The slot addressed by `id` currently stores exactly `id` (the notion of a
currently-live handle), as a decidable check. -/
def liveb (w : World) (id : Nat) : Bool :=
  decide (GetEntityIndex id < w.m_entities.length) &&
    ((w.desc (GetEntityIndex id)).m_id == id)

/-- Well-formed traces: the caller obligations stated by the specification.
`DestroyEntity` is only called on currently-live handles, handles passed to
`Assign`/`Remove` address slots inside the table, component ids stay below
`MAX_COMPONENTS`, and the entity count stays below `MAX_ENTITIES`. -/
def WFb (w : World) : List Op → Bool
  | [] => true
  | .newE :: ops =>
      decide (w.m_entities.length < MAX_ENTITIES) && WFb (stepW w .newE) ops
  | .destroyE id :: ops => liveb w id && WFb (stepW w (.destroyE id)) ops
  | .assignC componentId id :: ops =>
      decide (GetEntityIndex id < w.m_entities.length) &&
        decide (componentId < MAX_COMPONENTS) &&
        WFb (stepW w (.assignC componentId id)) ops
  | .removeC componentId id :: ops =>
      decide (GetEntityIndex id < w.m_entities.length) &&
        decide (componentId < MAX_COMPONENTS) &&
        WFb (stepW w (.removeC componentId id)) ops

/-- One step of the specification-side history flag for the pair
`(componentId, h)`: it becomes `true` at a successful
`Assign componentId h` and `false` at any `Remove componentId h` or
`DestroyEntity h`. -/
def histStep (w : World) (componentId h : Nat) (f : Bool) : Op → Bool
  | .newE => f
  | .destroyE id => if id = h then false else f
  | .assignC cid' id =>
      if cid' = componentId ∧ id = h ∧ (w.Assign cid' id).1.isSome then true else f
  | .removeC cid' id => if cid' = componentId ∧ id = h then false else f

/-- The history flag after running a trace from `w` with initial flag `f`:
`true` iff a successful `Assign componentId h` occurred with no
`Remove componentId h` or `DestroyEntity h` after it. -/
def histFrom (w : World) (componentId h : Nat) (f : Bool) : List Op → Bool
  | [] => f
  | op :: ops => histFrom (stepW w op) componentId h (histStep w componentId h f op) ops

/-! Concrete worlds used by counterexamples, failing-input evaluations and
witnesses.  All are reached through the API from `World.empty`. -/

/-- One entity: handle `(0, 0)`. -/
def w1 : World := (World.empty.NewEntity).2

/-- Two entities: handles `(0, 0)` and `(1, 0)`. -/
def w2 : World := (w1.NewEntity).2

/-- World `w2` after `DestroyEntity` of the live handle `(1, 0)`. -/
def wDestroyed : World := w2.DestroyEntity (CreateEntityId 1 0)

/-- World `w1` after destroying handle `(0, 0)`. -/
def wC3a : World := w1.DestroyEntity (CreateEntityId 0 0)

/-- Slot 0 recycled: its handle is now `(0, 1)`. -/
def wC3b : World := (wC3a.NewEntity).2

/-- Component id 0 assigned to the recycled entity `(0, 1)`. -/
def wC3 : World := (wC3b.Assign 0 (CreateEntityId 0 1)).2

/-- Component id 3 assigned to the recycled entity `(0, 1)`. -/
def wC5 : World := (wC3b.Assign 3 (CreateEntityId 0 1)).2

/-- One entity `(0, 0)` whose mask is exactly `{1}`: component ids 0 and 1
assigned, then component id 0 removed. -/
def wC1 : World := ((w1.Assign 0 0).2.Assign 1 0).2.Remove 0 0

/-! Auxiliary definitions used only to state and prove theorems. -/

/-- The qualification predicate of the iterator at index `i`:
`ValidIndex` evaluated with the view positioned at `i`. -/
def qualifies (w : World) (v : RosterView) (i : Nat) : Bool :=
  RosterView.ValidIndex { v with m_index := i } w

/-- Generic forward scan: advance from `i` while in range and the predicate
fails.  Both `beginScanF` and `incScanF` are instances of this scan (for a
well-formed view), which is what the traversal proofs use. -/
def scanF (P : Nat → Bool) (len : Nat) : Nat → Nat → Nat
  | 0, i => i
  | fuel + 1, i => if i < len ∧ P i = false then scanF P len fuel (i + 1) else i

/-- Precondition of one call in a well-formed trace (the `Prop` counterpart
of the corresponding `WFb` conjunct). -/
def opPre (w : World) : Op → Prop
  | .newE => w.m_entities.length < MAX_ENTITIES
  | .destroyE id =>
      GetEntityIndex id < w.m_entities.length ∧
        (w.desc (GetEntityIndex id)).m_id = id
  | .assignC componentId id =>
      GetEntityIndex id < w.m_entities.length ∧ componentId < MAX_COMPONENTS
  | .removeC componentId id =>
      GetEntityIndex id < w.m_entities.length ∧ componentId < MAX_COMPONENTS

/-- Invariant tying a world reached by a well-formed trace to the history
flags `f`: bounded table, well-shaped stored ids (index part equal to the
slot or the sentinel), empty masks on free slots, only `0` on the free stack
(a consequence of the double `GetEntityIndex` in `DestroyEntity`), allocated
pools behind every set mask bit, and the correspondence between mask bits of
live handles and the history flags. -/
def TraceInv (w : World) (f : Nat → Nat → Bool) : Prop :=
  w.m_entities.length ≤ MAX_ENTITIES ∧
  (∀ i, i < w.m_entities.length → (w.desc i).m_id < 2 ^ 64 ∧
    ((w.desc i).m_id / 2 ^ 32 = i ∨ (w.desc i).m_id / 2 ^ 32 = 2 ^ 32 - 1)) ∧
  (∀ i, i < w.m_entities.length → (w.desc i).m_id / 2 ^ 32 = 2 ^ 32 - 1 →
    (w.desc i).m_mask = ∅) ∧
  (∀ e ∈ w.m_freeEntities, e = 0) ∧
  (w.m_freeEntities ≠ [] → 0 < w.m_entities.length) ∧
  (∀ i, i < w.m_entities.length → ∀ c ∈ (w.desc i).m_mask,
    w.m_componentPools.getD c false = true) ∧
  (∀ cid h, f cid h = true →
    GetEntityIndex h < w.m_entities.length ∧ (w.desc (GetEntityIndex h)).m_id = h) ∧
  (∀ cid h, GetEntityIndex h < w.m_entities.length →
    (w.desc (GetEntityIndex h)).m_id = h →
    (cid ∈ (w.desc (GetEntityIndex h)).m_mask ↔ f cid h = true))

/-! Basic lemmas about the handle encoding. -/

theorem getIndex_create (i v : Nat) : GetEntityIndex (CreateEntityId i v) = i % 2 ^ 32 := by
  simp only [GetEntityIndex, CreateEntityId]
  omega

theorem getVersion_create (i v : Nat) :
    GetEntityVersion (CreateEntityId i v) = v % 2 ^ 32 := by
  simp only [GetEntityVersion, CreateEntityId]
  omega

theorem getIndex_getIndex (id : Nat) : GetEntityIndex (GetEntityIndex id) = 0 := by
  simp only [GetEntityIndex]
  omega

theorem destroyedId_ne (id : Nat) :
    CreateEntityId (2 ^ 32 - 1) (GetEntityVersion id + 1) ≠ id := by
  simp only [CreateEntityId, GetEntityVersion]
  omega

theorem div_create_sentinel (v : Nat) :
    CreateEntityId (2 ^ 32 - 1) v / 2 ^ 32 = 2 ^ 32 - 1 := by
  simp only [CreateEntityId]
  omega

theorem MAX_ENTITIES_lt : MAX_ENTITIES < 2 ^ 32 - 1 := by
  simp only [MAX_ENTITIES]
  omega

/-! Basic lemmas about `List.getD` as used through `World.desc`. -/

theorem getD_set_self {α : Type} (l : List α) (i : Nat) (d x : α)
    (h : i < l.length) : (l.set i d).getD i x = d := by
  simp [List.getD_eq_getElem?_getD, List.getElem?_set_self h]

theorem getD_set_ne {α : Type} (l : List α) {i j : Nat} (d x : α)
    (h : i ≠ j) : (l.set i d).getD j x = l.getD j x := by
  simp [List.getD_eq_getElem?_getD, List.getElem?_set_ne h]

theorem getD_append_left {α : Type} (l l' : List α) (x : α) {j : Nat}
    (h : j < l.length) : (l ++ l').getD j x = l.getD j x := by
  simp [List.getD_eq_getElem?_getD, List.getElem?_append, h]

theorem getD_append_one {α : Type} (l : List α) (d x : α) :
    (l ++ [d]).getD l.length x = d := by
  simp [List.getD_eq_getElem?_getD, List.getElem?_append_right (Nat.le_refl _)]

/-! Lemmas about the pool registry bookkeeping of `Assign`. -/

theorem getD_true_lt_length (pools : List Bool) (c : Nat)
    (h : pools.getD c false = true) : c < pools.length := by
  by_contra hc
  rw [List.getD_eq_getElem?_getD, List.getElem?_eq_none (by omega)] at h
  simp at h

theorem resizePools_le_length (pools : List Bool) (componentId : Nat) :
    pools.length ≤ (resizePools pools componentId).length := by
  unfold resizePools
  split <;> simp

theorem lt_resizePools_length (pools : List Bool) (componentId : Nat) :
    componentId < (resizePools pools componentId).length := by
  unfold resizePools
  split
  · simp
    omega
  · omega

theorem getD_resizePools (pools : List Bool) (componentId c : Nat) :
    (resizePools pools componentId).getD c false = pools.getD c false := by
  unfold resizePools
  split
  · rcases Nat.lt_or_ge c pools.length with hc | hc
    · exact getD_append_left _ _ _ hc
    · rw [List.getD_eq_getElem?_getD, List.getElem?_append_right hc,
        List.getElem?_replicate, List.getD_eq_getElem?_getD,
        List.getElem?_eq_none hc]
      split <;> rfl
  · rfl

theorem getD_poolsAfter (pools : List Bool) (componentId c : Nat) :
    (poolsAfter pools componentId).getD c false =
      if c = componentId then true else pools.getD c false := by
  unfold poolsAfter
  by_cases halloc : (resizePools pools componentId).getD componentId false = true
  · rw [if_pos halloc]
    rcases eq_or_ne c componentId with hc | hc
    · rw [if_pos hc, hc]
      exact halloc
    · rw [if_neg hc, getD_resizePools]
  · rw [if_neg halloc]
    rcases eq_or_ne c componentId with hc | hc
    · rw [if_pos hc, hc]
      exact getD_set_self _ _ _ _ (lt_resizePools_length pools componentId)
    · rw [if_neg hc, getD_set_ne _ _ _ (Ne.symm hc), getD_resizePools]

/-! Characterizations of `Assign`'s returned pointer and of `Has`. -/

theorem Assign_fst (w : World) (componentId id : Nat) :
    (w.Assign componentId id).1 =
      if (w.desc (GetEntityIndex id)).m_id = id then some () else none := by
  unfold World.Assign
  split
  · rename_i hne
    simp [hne]
  · rename_i hne
    rw [not_not] at hne
    simp [hne]

theorem Assign_live (w : World) (componentId id : Nat)
    (h : (w.desc (GetEntityIndex id)).m_id = id) :
    w.Assign componentId id =
      (some (),
        { w with
          m_componentPools := poolsAfter w.m_componentPools componentId,
          m_entities := w.m_entities.set (GetEntityIndex id)
            ⟨id, insert componentId (w.desc (GetEntityIndex id)).m_mask⟩ }) := by
  unfold World.Assign
  rw [if_neg (by omega), h]

theorem Has_eq_true_iff (w : World) (componentId id : Nat) :
    w.Has componentId id = true ↔
      componentId ∈ (w.desc (GetEntityIndex id)).m_mask ∧
        w.m_componentPools.getD componentId false = true := by
  unfold World.Has World.Get
  by_cases hmem : componentId ∈ (w.desc (GetEntityIndex id)).m_mask
  · rw [if_neg (not_not_intro hmem)]
    by_cases hgd : w.m_componentPools.getD componentId false = true
    · rw [if_pos ⟨getD_true_lt_length _ _ hgd, hgd⟩]
      exact ⟨fun _ => ⟨hmem, hgd⟩, fun _ => rfl⟩
    · rw [if_neg (fun hp => hgd hp.2)]
      exact ⟨fun h => absurd h (by decide), fun hp => absurd hp.2 hgd⟩
  · rw [if_pos hmem]
    exact ⟨fun h => absurd h (by decide), fun hp => absurd hp.1 hmem⟩

theorem NewEntity_fst_pop (w : World) (n : Nat) (rest : List Nat)
    (h : w.m_freeEntities = n :: rest) :
    (w.NewEntity).1 = CreateEntityId n (GetEntityVersion (w.desc n).m_id) := by
  unfold World.NewEntity
  rw [h]

theorem Remove_stale (w : World) (componentId id : Nat)
    (hne : (w.desc (GetEntityIndex id)).m_id ≠ id) :
    w.Remove componentId id = w := by
  unfold World.Remove
  rw [if_pos hne]

theorem Remove_live (w : World) (componentId id : Nat)
    (heq : (w.desc (GetEntityIndex id)).m_id = id) :
    (w.Remove componentId id).m_entities =
      w.m_entities.set (GetEntityIndex id)
        ⟨id, (w.desc (GetEntityIndex id)).m_mask.erase componentId⟩ ∧
    (w.Remove componentId id).m_freeEntities = w.m_freeEntities ∧
    (w.Remove componentId id).m_componentPools = w.m_componentPools := by
  unfold World.Remove
  rw [if_neg (not_not_intro heq), heq]
  exact ⟨rfl, rfl, rfl⟩

theorem DestroyEntity_free (w : World) (id : Nat) :
    (w.DestroyEntity id).m_freeEntities = 0 :: w.m_freeEntities := by
  simp [World.DestroyEntity, getIndex_getIndex]

theorem DestroyEntity_desc_self (w : World) (id : Nat)
    (hidx : GetEntityIndex id < w.m_entities.length) :
    (w.DestroyEntity id).desc (GetEntityIndex id) =
      ⟨CreateEntityId (2 ^ 32 - 1) (GetEntityVersion id + 1), ∅⟩ := by
  simp only [World.DestroyEntity, World.desc]
  exact getD_set_self _ _ _ _ hidx

/-- Claim C6 (confirmed): for a handle addressing an in-bounds slot whose
stored handle differs from it (destroyed or recycled), `Assign` returns null
and leaves the whole world — entity table, masks, free list and pool
registry — unchanged. -/
theorem assign_stale_null_unchanged (w : World) (componentId id : Nat)
    (hidx : GetEntityIndex id < w.m_entities.length)
    (hne : (w.desc (GetEntityIndex id)).m_id ≠ id) :
    w.Assign componentId id = (none, w) := by
  unfold World.Assign
  rw [if_pos hne]

/-- Witness for C6: in the one-entity world `w1`, slot 0 stores `(0, 0)`,
so assigning through the stale handle `(0, 1)` fails with no change. -/
theorem assign_stale_null_unchanged_witness :
    w1.Assign 0 (CreateEntityId 0 1) = (none, w1) :=
  assign_stale_null_unchanged w1 0 (CreateEntityId 0 1) (by decide) (by decide)

/-- Claim C7 (confirmed): destroying a currently-matching handle stores the
handle `(sentinel index, generation + 1)` (the version arithmetic is the
32-bit arithmetic of the source) and an empty presence mask at the slot
addressed by the handle's index, preserves the table length, and leaves
every other slot unchanged. -/
theorem destroy_updates_only_own_slot (w : World) (id : Nat)
    (hidx : GetEntityIndex id < w.m_entities.length)
    (hlive : (w.desc (GetEntityIndex id)).m_id = id) :
    (w.DestroyEntity id).m_entities.length = w.m_entities.length ∧
    (w.DestroyEntity id).desc (GetEntityIndex id) =
      ⟨CreateEntityId (2 ^ 32 - 1) (GetEntityVersion id + 1), ∅⟩ ∧
    (∀ j, j < w.m_entities.length → j ≠ GetEntityIndex id →
      (w.DestroyEntity id).desc j = w.desc j) := by
  refine ⟨?_, DestroyEntity_desc_self w id hidx, ?_⟩
  · simp [World.DestroyEntity]
  · intro j hj hne
    simp only [World.DestroyEntity, World.desc]
    exact getD_set_ne _ _ _ (Ne.symm hne)

/-- Witness for C7: destroying the live handle `(1, 0)` in the two-entity
world `w2` rewrites slot 1 as specified and leaves slot 0 unchanged. -/
theorem destroy_updates_only_own_slot_witness :
    (w2.DestroyEntity (CreateEntityId 1 0)).desc (GetEntityIndex (CreateEntityId 1 0)) =
      ⟨CreateEntityId (2 ^ 32 - 1) (GetEntityVersion (CreateEntityId 1 0) + 1), ∅⟩ ∧
    (w2.DestroyEntity (CreateEntityId 1 0)).desc 0 = w2.desc 0 :=
  ⟨(destroy_updates_only_own_slot w2 (CreateEntityId 1 0) (by decide) (by decide)).2.1,
   (destroy_updates_only_own_slot w2 (CreateEntityId 1 0) (by decide) (by decide)).2.2
     0 (by decide) (by decide)⟩

/-- Claim C3 counterexample: `wC3` is reached from the empty world by
creating entity `(0, 0)`, destroying it, recycling its slot through
`NewEntity` (handle `(0, 1)`) and assigning component id 0 to the recycled
entity.  `Get` through the destroyed handle `(0, 0)` then returns a
non-null pointer, because `Get` checks only the slot's mask bit, not the
handle's generation — contradicting the claim that every subsequent `get`
on a destroyed handle reports absence even after slot reuse. -/
theorem get_after_destroy_nonnull : wC3.Get 0 (CreateEntityId 0 0) = some () := by
  decide

/-- Claim C3 (amended): after `DestroyEntity id` (in-bounds index), `Get` and
`Assign` through `id` report null in the resulting state, and `Assign`
through `id` reports null in any state whose slot stores a handle other than
`id`; the amended claim drops the guarantee for `Get` after the slot has been
recycled and re-masked (see the counterexample). -/
theorem get_assign_null_after_destroy (w : World) (componentId id : Nat)
    (hidx : GetEntityIndex id < w.m_entities.length) :
    (w.DestroyEntity id).Get componentId id = none ∧
    ((w.DestroyEntity id).Assign componentId id).1 = none ∧
    (∀ w' : World, (w'.desc (GetEntityIndex id)).m_id ≠ id →
      (w'.Assign componentId id).1 = none) := by
  refine ⟨?_, ?_, ?_⟩
  · unfold World.Get
    rw [if_pos (by rw [DestroyEntity_desc_self w id hidx]; exact Finset.not_mem_empty _)]
  · rw [Assign_fst, if_neg]
    intro heq
    rw [DestroyEntity_desc_self w id hidx] at heq
    exact destroyedId_ne id heq
  · intro w' hne
    rw [Assign_fst, if_neg hne]

/-- Witness for the amended C3 in the one-entity world `w1`. -/
theorem get_assign_null_after_destroy_witness :
    (w1.DestroyEntity (CreateEntityId 0 0)).Get 0 (CreateEntityId 0 0) = none ∧
    ((w1.DestroyEntity (CreateEntityId 0 0)).Assign 0 (CreateEntityId 0 0)).1 = none :=
  ⟨(get_assign_null_after_destroy w1 0 (CreateEntityId 0 0) (by decide)).1,
   (get_assign_null_after_destroy w1 0 (CreateEntityId 0 0) (by decide)).2.1⟩

/-- Claim C5 counterexample: in `wC5`, slot 0 stores the recycled handle
`(0, 1)` with component id 3 attached.  `Remove` through the stale handle
`(0, 0)` leaves the world unchanged — the mask bit is still set — because
`Remove` does validate handle freshness, contradicting the claim that it
clears the bit without validating. -/
theorem remove_stale_counterexample :
    wC5.Remove 3 (CreateEntityId 0 0) = wC5 ∧
    3 ∈ (wC5.desc (GetEntityIndex (CreateEntityId 0 0))).m_mask := by
  decide

/-- Claim C5 (amended): `Remove` validates handle freshness exactly as
`Assign` does: for a handle whose slot stores a different handle it returns
with no change at all; for a matching handle it clears the mask bit for the
component's identity and changes nothing else (no payload destruction: the
pool registry is untouched). -/
theorem remove_checks_freshness (w : World) (componentId id : Nat)
    (hidx : GetEntityIndex id < w.m_entities.length) :
    ((w.desc (GetEntityIndex id)).m_id ≠ id → w.Remove componentId id = w) ∧
    ((w.desc (GetEntityIndex id)).m_id = id →
      (w.Remove componentId id).m_entities =
        w.m_entities.set (GetEntityIndex id)
          ⟨id, (w.desc (GetEntityIndex id)).m_mask.erase componentId⟩ ∧
      (w.Remove componentId id).m_freeEntities = w.m_freeEntities ∧
      (w.Remove componentId id).m_componentPools = w.m_componentPools) :=
  ⟨Remove_stale w componentId id, Remove_live w componentId id⟩

/-- Witness for the amended C5: the stale branch at `wC5` and the live
branch at `wC3`. -/
theorem remove_checks_freshness_witness :
    wC5.Remove 3 (CreateEntityId 0 0) = wC5 ∧
    (wC3.Remove 0 (CreateEntityId 0 1)).m_entities =
      wC3.m_entities.set (GetEntityIndex (CreateEntityId 0 1))
        ⟨CreateEntityId 0 1,
          (wC3.desc (GetEntityIndex (CreateEntityId 0 1))).m_mask.erase 0⟩ :=
  ⟨(remove_checks_freshness wC5 3 (CreateEntityId 0 0) (by decide)).1 (by decide),
   ((remove_checks_freshness wC3 0 (CreateEntityId 0 1) (by decide)).2 (by decide)).1⟩

/-- Claim C2 failing-input evaluation: in the two-entity world `w2`, destroy
the live handle `(1, 0)` and immediately call `NewEntity` with no intervening
creations.  The claim requires a handle with index 1 and generation 1; the
code returns `(0, 0)` — slot index 0 re-encoded with slot 0's existing
generation — because `DestroyEntity` pushed
`GetEntityIndex(GetEntityIndex(id)) = 0` onto the free list instead of the
destroyed slot's index. -/
theorem destroy_then_new_failing_input :
    (wDestroyed.NewEntity).1 = CreateEntityId 0 0 ∧
    GetEntityIndex (wDestroyed.NewEntity).1 ≠ GetEntityIndex (CreateEntityId 1 0) ∧
    GetEntityVersion (wDestroyed.NewEntity).1 ≠
      GetEntityVersion (CreateEntityId 1 0) + 1 := by
  decide

/-- Claim C10 (confirmed): `DestroyEntity` pushes slot index 0 onto the free
list for every handle (the pushed value is `GetEntityIndex` applied twice,
which is always 0); the `NewEntity` immediately following any destroy pops
the free list and returns a handle with index 0; and in the concrete world
`wDestroyed` (slot 0 live, slot 1 just destroyed) that returned handle is
exactly the valid handle currently stored at slot 0. -/
theorem destroy_pushes_zero :
    (∀ (w : World) (id : Nat),
      GetEntityIndex (GetEntityIndex id) = 0 ∧
      (w.DestroyEntity id).m_freeEntities = 0 :: w.m_freeEntities) ∧
    (∀ (w : World) (id : Nat),
      GetEntityIndex (((w.DestroyEntity id).NewEntity).1) = 0) ∧
    ((wDestroyed.NewEntity).1 = (wDestroyed.desc 0).m_id ∧
      IsEntityValid ((wDestroyed.desc 0).m_id) = true) := by
  refine ⟨fun w id => ⟨getIndex_getIndex id, DestroyEntity_free w id⟩, ?_, by decide⟩
  intro w id
  rw [NewEntity_fst_pop _ 0 w.m_freeEntities (DestroyEntity_free w id), getIndex_create]
  rfl

/-! The scan/traversal lemmas behind the query-iterator claims. -/

theorem qualifies_update (w : World) (v : RosterView) (n : Nat) :
    qualifies w { v with m_index := n } = qualifies w v := rfl

theorem incScanF_eq_scanF (w : World) (v : RosterView) :
    ∀ fuel i, incScanF w v fuel i =
      scanF (qualifies w v) w.m_entities.length fuel i := by
  intro fuel
  induction fuel with
  | zero => intro i; rfl
  | succ fuel ih =>
    intro i
    simp only [incScanF, scanF, qualifies, Bool.not_eq_true]
    split
    · exact ih (i + 1)
    · rfl

theorem qualifies_false_iff (w : World) (v : RosterView)
    (hwf : v.m_all = true → v.m_componentMask = ∅) (i : Nat) :
    (v.m_componentMask ≠ v.m_componentMask ∩ (w.desc i).m_mask ∨
      ¬ IsEntityValid (w.desc i).m_id) ↔ qualifies w v i = false := by
  unfold qualifies RosterView.ValidIndex
  cases hall : v.m_all
  · cases hval : IsEntityValid (w.desc i).m_id
    · simp [hall, hval]
    · simp [hall, hval, decide_eq_false_iff_not]
  · have hm := hwf hall
    rw [hm]
    simp [hall]

theorem beginScanF_eq_scanF (w : World) (v : RosterView)
    (hwf : v.m_all = true → v.m_componentMask = ∅) :
    ∀ fuel i, beginScanF w v.m_componentMask fuel i =
      scanF (qualifies w v) w.m_entities.length fuel i := by
  intro fuel
  induction fuel with
  | zero => intro i; rfl
  | succ fuel ih =>
    intro i
    unfold beginScanF scanF
    by_cases hc : i < w.m_entities.length ∧
        (v.m_componentMask ≠ v.m_componentMask ∩ (w.desc i).m_mask ∨
          ¬ IsEntityValid (w.desc i).m_id)
    · rw [if_pos hc, if_pos ⟨hc.1, (qualifies_false_iff w v hwf i).mp hc.2⟩]
      exact ih (i + 1)
    · rw [if_neg hc,
        if_neg (fun h => hc ⟨h.1, (qualifies_false_iff w v hwf i).mpr h.2⟩)]

theorem le_scanF (P : Nat → Bool) (len : Nat) :
    ∀ fuel i, i ≤ scanF P len fuel i := by
  intro fuel
  induction fuel with
  | zero => intro i; exact Nat.le_refl i
  | succ fuel ih =>
    intro i
    unfold scanF
    split
    · exact Nat.le_trans (Nat.le_succ i) (ih (i + 1))
    · exact Nat.le_refl i

theorem scanF_le_len (P : Nat → Bool) (len : Nat) :
    ∀ fuel i, i ≤ len → scanF P len fuel i ≤ len := by
  intro fuel
  induction fuel with
  | zero => intro i hi; exact hi
  | succ fuel ih =>
    intro i hi
    unfold scanF
    split
    · rename_i hc
      exact ih (i + 1) hc.1
    · exact hi

theorem scanF_not_before (P : Nat → Bool) (len : Nat) :
    ∀ fuel i j, i ≤ j → j < scanF P len fuel i → P j = false := by
  intro fuel
  induction fuel with
  | zero =>
    intro i j hij hj
    exact absurd (Nat.lt_of_le_of_lt hij hj) (Nat.lt_irrefl i)
  | succ fuel ih =>
    intro i j hij hj
    unfold scanF at hj
    split at hj
    · rename_i hc
      rcases Nat.eq_or_lt_of_le hij with heq | hlt
      · exact heq ▸ hc.2
      · exact ih (i + 1) j hlt hj
    · exact absurd (Nat.lt_of_le_of_lt hij hj) (Nat.lt_irrefl i)

theorem scanF_qualifies (P : Nat → Bool) (len : Nat) :
    ∀ fuel i, len - i ≤ fuel → scanF P len fuel i < len →
      P (scanF P len fuel i) = true := by
  intro fuel
  induction fuel with
  | zero =>
    intro i hfuel hlt
    unfold scanF at hlt
    omega
  | succ fuel ih =>
    intro i hfuel hlt
    unfold scanF at hlt ⊢
    split at hlt
    · rename_i hc
      rw [if_pos hc]
      exact ih (i + 1) (by omega) hlt
    · rename_i hc
      rw [if_neg hc]
      rcases Bool.eq_false_or_eq_true (P i) with hP | hP
      · exact hP
      · exact absurd ⟨hlt, hP⟩ hc

theorem ne_end_iff (w : World) (hlen : w.m_entities.length < 2 ^ 32)
    (u : RosterView) :
    u.ne (u.endIter w) w = true ↔ u.m_index ≠ w.m_entities.length := by
  simp only [RosterView.ne, RosterView.endIter]
  rw [Nat.mod_eq_of_lt hlen]
  simp [and_self]

theorem filter_range'_congr_skip (P : Nat → Bool) (len : Nat) :
    ∀ (d i : Nat), i + d ≤ len → (∀ j, i ≤ j → j < i + d → P j = false) →
      (List.range' i (len - i)).filter P =
        (List.range' (i + d) (len - (i + d))).filter P := by
  intro d
  induction d with
  | zero => intro i _ _; rfl
  | succ d ih =>
    intro i hd hskip
    have hi : i < len := by omega
    rw [show len - i = (len - (i + 1)) + 1 from by omega, List.range'_succ,
      List.filter_cons, if_neg (by simp [hskip i (Nat.le_refl i) (by omega)])]
    rw [ih (i + 1) (by omega) (fun j hj1 hj2 => hskip j (by omega) (by omega)),
      show i + 1 + d = i + (d + 1) from by omega]

theorem traverseLoopF_eq_filter (w : World) (v : RosterView)
    (hwf : v.m_all = true → v.m_componentMask = ∅)
    (hlen : w.m_entities.length < 2 ^ 32) :
    ∀ k i, i ≤ w.m_entities.length → w.m_entities.length - i < k →
      traverseLoopF w k
        { v with m_index :=
            scanF (qualifies w v) w.m_entities.length (w.m_entities.length + 1) i } =
      (List.range' i (w.m_entities.length - i)).filter (qualifies w v) := by
  intro k
  induction k with
  | zero => intro i hi hk; omega
  | succ k ih =>
    intro i hi hk
    set len := w.m_entities.length with hlendef
    set P := qualifies w v with hP
    set r := scanF P len (len + 1) i with hr
    have hir : i ≤ r := le_scanF P len (len + 1) i
    have hrlen : r ≤ len := scanF_le_len P len (len + 1) i hi
    have hskip : ∀ j, i ≤ j → j < r → P j = false :=
      fun j h1 h2 => scanF_not_before P len (len + 1) i j h1 h2
    unfold traverseLoopF
    by_cases hrl : r = len
    · rw [if_neg (fun h => ((ne_end_iff w hlen _).mp h) hrl)]
      symm
      rw [List.filter_eq_nil_iff]
      intro a ha
      rw [List.mem_range'_1] at ha
      simp only [Bool.not_eq_true]
      exact hskip a ha.1 (by omega)
    · rw [if_pos ((ne_end_iff w hlen _).mpr hrl)]
      have hrlt : r < len := Nat.lt_of_le_of_ne hrlen hrl
      have hPr : P r = true := scanF_qualifies P len (len + 1) i (by omega) hrlt
      have hinc : ({ v with m_index := r } : RosterView).inc w =
          { v with m_index := scanF P len (len + 1) (r + 1) } := by
        unfold RosterView.inc
        rw [incScanF_eq_scanF w { v with m_index := r }, qualifies_update]
      rw [hinc, ih (r + 1) (by omega) (by omega)]
      rw [filter_range'_congr_skip P len (r - i) i (by omega)
        (fun j h1 h2 => hskip j h1 (by omega))]
      rw [show i + (r - i) = r from by omega,
        show len - r = (len - (r + 1)) + 1 from by omega, List.range'_succ,
        List.filter_cons, if_pos hPr]

theorem traverseIdx_eq_filter (w : World) (v : RosterView)
    (hwf : v.m_all = true → v.m_componentMask = ∅)
    (hlen : w.m_entities.length < 2 ^ 32) :
    v.traverseIdx w = (List.range w.m_entities.length).filter (qualifies w v) := by
  unfold RosterView.traverseIdx RosterView.begin
  rw [beginScanF_eq_scanF w v hwf,
    traverseLoopF_eq_filter w v hwf hlen (w.m_entities.length + 1) 0
      (Nat.zero_le _) (by omega),
    Nat.sub_zero, ← List.range_eq_range']

theorem derefLoopF_eq_map (w : World) :
    ∀ fuel (v : RosterView), derefLoopF w fuel v =
      (traverseLoopF w fuel v).map (fun i => (w.desc i).m_id) := by
  intro fuel
  induction fuel with
  | zero => intro v; rfl
  | succ fuel ih =>
    intro v
    simp only [derefLoopF, traverseLoopF]
    split
    · rw [ih (v.inc w)]
      rfl
    · rfl

theorem traverse_eq_map (w : World) (v : RosterView) :
    v.traverse w = (v.traverseIdx w).map (fun i => (w.desc i).m_id) :=
  derefLoopF_eq_map w _ _

theorem mkRosterView_wf (S : List Nat) :
    (mkRosterView S).m_all = true → (mkRosterView S).m_componentMask = ∅ := by
  unfold mkRosterView
  split
  · intro _; rfl
  · intro h; exact absurd h (by simp)

theorem mkRosterView_cons (S : List Nat) (h : S ≠ []) :
    mkRosterView S =
      ⟨0, (0 :: S).foldl (fun m componentId => insert componentId m) ∅, false⟩ := by
  simp [mkRosterView, h]

theorem mem_foldl_insert (l : List Nat) :
    ∀ (init : Finset Nat) (x : Nat),
      x ∈ l.foldl (fun m componentId => insert componentId m) init ↔
        x ∈ l ∨ x ∈ init := by
  induction l with
  | nil => intro init x; simp
  | cons a l ih =>
    intro init x
    rw [List.foldl_cons, ih]
    simp only [Finset.mem_insert, List.mem_cons]
    tauto

theorem qualifies_mk_nil (w : World) (i : Nat) :
    qualifies w (mkRosterView []) i = IsEntityValid (w.desc i).m_id := by
  simp [qualifies, RosterView.ValidIndex, mkRosterView]

theorem foldl_insert_eq_toFinset (l : List Nat) :
    l.foldl (fun m componentId => insert componentId m) ∅ = l.toFinset := by
  ext x
  rw [mem_foldl_insert]
  simp

theorem qualifies_mk_cons (w : World) (S : List Nat) (i : Nat) (h : S ≠ []) :
    qualifies w (mkRosterView S) i =
      (IsEntityValid (w.desc i).m_id &&
        decide ((0 :: S).toFinset ⊆ (w.desc i).m_mask)) := by
  rw [mkRosterView_cons S h]
  simp only [qualifies, RosterView.ValidIndex, Bool.false_or]
  congr 1
  rw [foldl_insert_eq_toFinset, decide_eq_decide, eq_comm, Finset.inter_eq_left]

/-- Claim C1 counterexample: `wC1` holds a single valid entity `(0, 0)`
whose attached component-id set is exactly `{1}`, a superset of the queried
set `{1}`; the claim therefore requires the query over `[1]` to yield it.
The constructed query mask also contains the spurious bit 0 (the leading `0`
of the `componentIds` array is fed into `set`), so the traversal yields
nothing. -/
theorem query_superset_counterexample :
    (mkRosterView [1]).traverseIdx wC1 = [] ∧
    (mkRosterView [1]).traverse wC1 = [] ∧
    wC1.m_entities.length = 1 ∧
    IsEntityValid ((wC1.desc 0).m_id) = true ∧
    (1 : Nat) ∈ (wC1.desc 0).m_mask ∧
    (0 : Nat) ∉ (wC1.desc 0).m_mask := by
  decide

/-- Claim C1 (amended): a query built from the empty type set yields exactly
the currently-valid slots, as claimed; a query built from a non-empty type
set `S` always has bit 0 set in its mask in addition to the ids of `S`, so it
yields exactly the valid slots whose attached-type set is a superset of
`S ∪ {0}` (not of `S` alone).  The yielded handle sequence is the stored
handle at each yielded slot. -/
theorem rosterView_query_characterization (w : World) (S : List Nat)
    (hlen : w.m_entities.length < 2 ^ 32) :
    (S = [] → (mkRosterView S).traverseIdx w =
      (List.range w.m_entities.length).filter
        (fun i => IsEntityValid (w.desc i).m_id)) ∧
    (S ≠ [] → (mkRosterView S).traverseIdx w =
      (List.range w.m_entities.length).filter
        (fun i => IsEntityValid (w.desc i).m_id &&
          decide ((0 :: S).toFinset ⊆ (w.desc i).m_mask))) ∧
    (mkRosterView S).traverse w =
      ((mkRosterView S).traverseIdx w).map (fun i => (w.desc i).m_id) := by
  refine ⟨?_, ?_, traverse_eq_map w (mkRosterView S)⟩
  · intro h
    subst h
    rw [traverseIdx_eq_filter w _ (mkRosterView_wf []) hlen]
    exact List.filter_congr (fun i _ => qualifies_mk_nil w i)
  · intro h
    rw [traverseIdx_eq_filter w _ (mkRosterView_wf S) hlen]
    exact List.filter_congr (fun i _ => qualifies_mk_cons w S i h)

/-- Witness for the amended C1: both the empty-set branch and the
non-empty-set branch evaluated in the concrete world `wC1`. -/
theorem rosterView_query_characterization_witness :
    ((mkRosterView []).traverseIdx wC1 =
      (List.range wC1.m_entities.length).filter
        (fun i => IsEntityValid (wC1.desc i).m_id)) ∧
    ((mkRosterView [1]).traverseIdx wC1 =
      (List.range wC1.m_entities.length).filter
        (fun i => IsEntityValid (wC1.desc i).m_id &&
          decide ((0 :: [1]).toFinset ⊆ (wC1.desc i).m_mask))) :=
  ⟨(rosterView_query_characterization wC1 [] (by decide)).1 rfl,
   (rosterView_query_characterization wC1 [1] (by decide)).2.1 (by decide)⟩

/-- Claim C8 (confirmed): two separately constructed queries over the same
component type set, traversed against the same unmodified world, produce
identical handle sequences (and identical position sequences).  Query
construction and traversal are deterministic functions of the world and the
type set. -/
theorem query_reiteration_deterministic (w : World) (S : List Nat)
    (v1 v2 : RosterView) (h1 : v1 = mkRosterView S) (h2 : v2 = mkRosterView S) :
    v1.traverse w = v2.traverse w ∧ v1.traverseIdx w = v2.traverseIdx w := by
  subst h1
  subst h2
  exact ⟨rfl, rfl⟩

/-- Witness for C8 at a concrete world and type set. -/
theorem query_reiteration_deterministic_witness :
    (mkRosterView [0]).traverse wC1 = (mkRosterView [0]).traverse wC1 ∧
    (mkRosterView [0]).traverseIdx wC1 = (mkRosterView [0]).traverseIdx wC1 :=
  query_reiteration_deterministic wC1 [0] _ _ rfl rfl

/-- Claim C9 (confirmed): every query traversal yields strictly ascending
slot indices, and dereferencing at each yielded position returns exactly the
handle currently stored in the entity table at that slot index. -/
theorem query_ascending_and_deref (w : World) (S : List Nat)
    (hlen : w.m_entities.length < 2 ^ 32) :
    List.Sorted (· < ·) ((mkRosterView S).traverseIdx w) ∧
    (mkRosterView S).traverse w =
      ((mkRosterView S).traverseIdx w).map (fun i => (w.desc i).m_id) := by
  constructor
  · rw [traverseIdx_eq_filter w _ (mkRosterView_wf S) hlen]
    exact List.Pairwise.sublist (List.filter_sublist _) (List.pairwise_lt_range _)
  · exact traverse_eq_map w (mkRosterView S)

/-- Witness for C9 in the two-entity world `w2`. -/
theorem query_ascending_and_deref_witness :
    List.Sorted (· < ·) ((mkRosterView []).traverseIdx w2) ∧
    (mkRosterView []).traverse w2 =
      ((mkRosterView []).traverseIdx w2).map (fun i => (w2.desc i).m_id) :=
  query_ascending_and_deref w2 [] (by decide)

/-! Invariant preservation along well-formed traces (claim C4). -/

theorem MAX_eq : MAX_ENTITIES = 1000000 := rfl

theorem inv_step_newE (w : World) (f : Nat → Nat → Bool)
    (hpre : w.m_entities.length < MAX_ENTITIES) (hinv : TraceInv w f) :
    TraceInv (w.NewEntity).2 f := by
  obtain ⟨hA, hB, hCm, hFr, hFr2, hP, hD, hE⟩ := hinv
  have hlenlt : w.m_entities.length < 2 ^ 32 - 1 := by
    have := MAX_ENTITIES_lt
    have := MAX_eq
    omega
  cases hfree : w.m_freeEntities with
  | nil =>
    have hw : (w.NewEntity).2 = { w with
        m_entities := w.m_entities ++ [⟨CreateEntityId w.m_entities.length 0, ∅⟩] } := by
      simp only [World.NewEntity, hfree]
    have hlen' : (w.NewEntity).2.m_entities.length = w.m_entities.length + 1 := by
      rw [hw]; simp
    have hdesc_lt : ∀ j, j < w.m_entities.length → (w.NewEntity).2.desc j = w.desc j := by
      intro j hj
      rw [hw]
      simp only [World.desc]
      exact getD_append_left _ _ _ hj
    have hdesc_new : (w.NewEntity).2.desc w.m_entities.length =
        ⟨CreateEntityId w.m_entities.length 0, ∅⟩ := by
      rw [hw]
      simp only [World.desc]
      exact getD_append_one _ _ _
    have hfree' : (w.NewEntity).2.m_freeEntities = [] := by rw [hw]; exact hfree
    have hpools' : (w.NewEntity).2.m_componentPools = w.m_componentPools := by rw [hw]
    have hidx_new : GetEntityIndex (CreateEntityId w.m_entities.length 0) =
        w.m_entities.length := by
      rw [getIndex_create]
      omega
    refine ⟨?_, ?_, ?_, ?_, ?_, ?_, ?_, ?_⟩
    · rw [hlen']
      have := MAX_eq
      omega
    · intro i hi
      rw [hlen'] at hi
      rcases Nat.lt_or_ge i w.m_entities.length with hil | hil
      · rw [hdesc_lt i hil]
        exact hB i hil
      · have hieq : i = w.m_entities.length := by omega
        subst hieq
        rw [hdesc_new]
        constructor
        · simp only [CreateEntityId]
          omega
        · left
          simp only [CreateEntityId]
          omega
    · intro i hi hsent
      rw [hlen'] at hi
      rcases Nat.lt_or_ge i w.m_entities.length with hil | hil
      · rw [hdesc_lt i hil] at hsent ⊢
        exact hCm i hil hsent
      · have hieq : i = w.m_entities.length := by omega
        subst hieq
        rw [hdesc_new]
    · intro e he
      rw [hfree'] at he
      exact absurd he (List.not_mem_nil e)
    · intro hne
      rw [hfree'] at hne
      exact absurd rfl hne
    · intro i hi c hc
      rw [hlen'] at hi
      rw [hpools']
      rcases Nat.lt_or_ge i w.m_entities.length with hil | hil
      · rw [hdesc_lt i hil] at hc
        exact hP i hil c hc
      · have hieq : i = w.m_entities.length := by omega
        subst hieq
        rw [hdesc_new] at hc
        exact absurd hc (Finset.not_mem_empty c)
    · intro c h hf
      obtain ⟨hl1, hl2⟩ := hD c h hf
      refine ⟨by omega, ?_⟩
      rw [hdesc_lt _ hl1]
      exact hl2
    · intro c h hl1 hl2
      rw [hlen'] at hl1
      rcases Nat.lt_or_ge (GetEntityIndex h) w.m_entities.length with hil | hil
      · rw [hdesc_lt _ hil] at hl2 ⊢
        exact hE c h hil hl2
      · have hieq : GetEntityIndex h = w.m_entities.length := by omega
        rw [hieq, hdesc_new] at hl2 ⊢
        constructor
        · intro hc
          exact absurd hc (Finset.not_mem_empty c)
        · intro hf
          obtain ⟨hl1', _⟩ := hD c h hf
          rw [← hl2, hidx_new] at hieq
          omega
  | cons e rest =>
    have he0 : e = 0 := hFr e (by rw [hfree]; exact List.mem_cons_self e rest)
    subst he0
    have h0len : 0 < w.m_entities.length := hFr2 (by rw [hfree]; simp)
    have hw : (w.NewEntity).2 = { w with
        m_entities := w.m_entities.set 0
          ⟨CreateEntityId 0 (GetEntityVersion (w.desc 0).m_id), (w.desc 0).m_mask⟩,
        m_freeEntities := rest } := by
      simp only [World.NewEntity, hfree]
    have hlen' : (w.NewEntity).2.m_entities.length = w.m_entities.length := by
      rw [hw]; simp
    have hdesc0 : (w.NewEntity).2.desc 0 =
        ⟨CreateEntityId 0 (GetEntityVersion (w.desc 0).m_id), (w.desc 0).m_mask⟩ := by
      rw [hw]
      simp only [World.desc]
      exact getD_set_self _ _ _ _ h0len
    have hdescj : ∀ j, j ≠ 0 → (w.NewEntity).2.desc j = w.desc j := by
      intro j hj
      rw [hw]
      simp only [World.desc]
      exact getD_set_ne _ _ _ (Ne.symm hj)
    have hfree' : (w.NewEntity).2.m_freeEntities = rest := by rw [hw]
    have hpools' : (w.NewEntity).2.m_componentPools = w.m_componentPools := by rw [hw]
    obtain ⟨hB0a, hB0b⟩ := hB 0 h0len
    rcases hB0b with hs0 | hs0
    · -- slot 0 live: the rewrite stores the same id back
      have hdesc0' : (w.NewEntity).2.desc 0 = w.desc 0 := by
        rw [hdesc0]
        have : CreateEntityId 0 (GetEntityVersion (w.desc 0).m_id) = (w.desc 0).m_id := by
          simp only [CreateEntityId, GetEntityVersion]
          omega
        rw [this]
      have hdesc_all : ∀ j, (w.NewEntity).2.desc j = w.desc j := by
        intro j
        by_cases hj : j = 0
        · subst hj; exact hdesc0'
        · exact hdescj j hj
      refine ⟨?_, ?_, ?_, ?_, ?_, ?_, ?_, ?_⟩
      · rw [hlen']; exact hA
      · intro i hi; rw [hlen'] at hi; rw [hdesc_all]; exact hB i hi
      · intro i hi hsent
        rw [hlen'] at hi
        rw [hdesc_all] at hsent ⊢
        exact hCm i hi hsent
      · intro e' he'
        rw [hfree'] at he'
        exact hFr e' (by rw [hfree]; exact List.mem_cons_of_mem 0 he')
      · intro _
        rw [hlen']
        exact h0len
      · intro i hi c hc
        rw [hlen'] at hi
        rw [hpools']
        rw [hdesc_all] at hc
        exact hP i hi c hc
      · intro c h hf
        obtain ⟨hl1, hl2⟩ := hD c h hf
        rw [hlen', hdesc_all]
        exact ⟨hl1, hl2⟩
      · intro c h hl1 hl2
        rw [hlen'] at hl1
        rw [hdesc_all] at hl2 ⊢
        exact hE c h hl1 hl2
    · -- slot 0 free: it becomes live with handle nid
      have hmask0 : (w.desc 0).m_mask = ∅ := hCm 0 h0len hs0
      have hnid_lt : CreateEntityId 0 (GetEntityVersion (w.desc 0).m_id) < 2 ^ 32 := by
        simp only [CreateEntityId, GetEntityVersion]
        omega
      have hnid_div : CreateEntityId 0 (GetEntityVersion (w.desc 0).m_id) / 2 ^ 32 = 0 := by
        omega
      refine ⟨?_, ?_, ?_, ?_, ?_, ?_, ?_, ?_⟩
      · rw [hlen']; exact hA
      · intro i hi
        rw [hlen'] at hi
        by_cases hj : i = 0
        · subst hj
          rw [hdesc0]
          constructor
          · show CreateEntityId 0 (GetEntityVersion (w.desc 0).m_id) < 2 ^ 64
            omega
          · exact Or.inl hnid_div
        · rw [hdescj i hj]
          exact hB i hi
      · intro i hi hsent
        rw [hlen'] at hi
        by_cases hj : i = 0
        · subst hj
          rw [hdesc0, hmask0]
        · rw [hdescj i hj] at hsent ⊢
          exact hCm i hi hsent
      · intro e' he'
        rw [hfree'] at he'
        exact hFr e' (by rw [hfree]; exact List.mem_cons_of_mem 0 he')
      · intro _
        rw [hlen']
        exact h0len
      · intro i hi c hc
        rw [hlen'] at hi
        rw [hpools']
        by_cases hj : i = 0
        · subst hj
          rw [hdesc0, hmask0] at hc
          exact absurd hc (Finset.not_mem_empty c)
        · rw [hdescj i hj] at hc
          exact hP i hi c hc
      · intro c h hf
        obtain ⟨hl1, hl2⟩ := hD c h hf
        rw [hlen']
        refine ⟨hl1, ?_⟩
        by_cases hj : GetEntityIndex h = 0
        · exfalso
          rw [hj] at hl2
          have : GetEntityIndex h = 2 ^ 32 - 1 := by
            rw [← hl2]
            simp only [GetEntityIndex]
            omega
          rw [hj] at this
          omega
        · rw [hdescj _ hj]
          exact hl2
      · intro c h hl1 hl2
        rw [hlen'] at hl1
        by_cases hj : GetEntityIndex h = 0
        · rw [hj, hdesc0] at hl2
          rw [hj, hdesc0, hmask0]
          constructor
          · intro hc
            exact absurd hc (Finset.not_mem_empty c)
          · intro hf
            exfalso
            obtain ⟨hl1', hl2'⟩ := hD c h hf
            rw [hj] at hl2'
            have hnh : CreateEntityId 0 (GetEntityVersion (w.desc 0).m_id) = h := hl2
            rw [← hnh] at hl2'
            rw [hl2', hnid_div] at hs0
            omega
        · rw [hdescj _ hj] at hl2 ⊢
          exact hE c h hl1 hl2

theorem inv_step_destroyE (w : World) (f : Nat → Nat → Bool) (id : Nat)
    (hpre : GetEntityIndex id < w.m_entities.length ∧
      (w.desc (GetEntityIndex id)).m_id = id)
    (hinv : TraceInv w f) :
    TraceInv (w.DestroyEntity id) (fun c h => if id = h then false else f c h) := by
  obtain ⟨hA, hB, hCm, hFr, hFr2, hP, hD, hE⟩ := hinv
  obtain ⟨hidx, hlive⟩ := hpre
  have hlen' : (w.DestroyEntity id).m_entities.length = w.m_entities.length := by
    simp [World.DestroyEntity]
  have hdesc_self := DestroyEntity_desc_self w id hidx
  have hdesc_ne : ∀ j, j ≠ GetEntityIndex id →
      (w.DestroyEntity id).desc j = w.desc j := by
    intro j hj
    simp only [World.DestroyEntity, World.desc]
    exact getD_set_ne _ _ _ (Ne.symm hj)
  have hfree' := DestroyEntity_free w id
  have hpools' : (w.DestroyEntity id).m_componentPools = w.m_componentPools := by
    simp [World.DestroyEntity]
  refine ⟨?_, ?_, ?_, ?_, ?_, ?_, ?_, ?_⟩
  · rw [hlen']; exact hA
  · intro i hi
    rw [hlen'] at hi
    by_cases hij : i = GetEntityIndex id
    · subst hij
      rw [hdesc_self]
      constructor
      · show CreateEntityId (2 ^ 32 - 1) (GetEntityVersion id + 1) < 2 ^ 64
        simp only [CreateEntityId]
        omega
      · exact Or.inr (div_create_sentinel _)
    · rw [hdesc_ne i hij]
      exact hB i hi
  · intro i hi hsent
    rw [hlen'] at hi
    by_cases hij : i = GetEntityIndex id
    · subst hij
      rw [hdesc_self]
    · rw [hdesc_ne i hij] at hsent ⊢
      exact hCm i hi hsent
  · intro e he
    rw [hfree'] at he
    rcases List.mem_cons.mp he with he | he
    · exact he
    · exact hFr e he
  · intro _
    rw [hlen']
    omega
  · intro i hi c hc
    rw [hlen'] at hi
    rw [hpools']
    by_cases hij : i = GetEntityIndex id
    · subst hij
      rw [hdesc_self] at hc
      exact absurd hc (Finset.not_mem_empty c)
    · rw [hdesc_ne i hij] at hc
      exact hP i hi c hc
  · intro c h hf
    have hf' : (if id = h then false else f c h) = true := hf
    by_cases hih : id = h
    · rw [if_pos hih] at hf'
      exact absurd hf' (by simp)
    · rw [if_neg hih] at hf'
      obtain ⟨hl1, hl2⟩ := hD c h hf'
      rw [hlen']
      refine ⟨hl1, ?_⟩
      by_cases hidxeq : GetEntityIndex h = GetEntityIndex id
      · exfalso
        rw [hidxeq] at hl2
        exact hih (hlive.symm.trans hl2)
      · rw [hdesc_ne _ hidxeq]
        exact hl2
  · intro c h hl1 hl2
    rw [hlen'] at hl1
    show c ∈ ((w.DestroyEntity id).desc (GetEntityIndex h)).m_mask ↔
      (if id = h then false else f c h) = true
    by_cases hidxeq : GetEntityIndex h = GetEntityIndex id
    · exfalso
      rw [hidxeq, hdesc_self] at hl2
      have h1 : GetEntityIndex h = (2 ^ 32 - 1) % 2 ^ 32 := by
        rw [← hl2]
        exact getIndex_create _ _
      have := MAX_eq
      omega
    · rw [hdesc_ne _ hidxeq] at hl2 ⊢
      have hne_id : id ≠ h := by
        intro heq
        subst heq
        exact hidxeq rfl
      rw [if_neg hne_id]
      exact hE c h hl1 hl2

theorem inv_step_assignC (w : World) (f : Nat → Nat → Bool) (cid id : Nat)
    (hpre : GetEntityIndex id < w.m_entities.length ∧ cid < MAX_COMPONENTS)
    (hinv : TraceInv w f) :
    TraceInv (w.Assign cid id).2
      (fun c h =>
        if cid = c ∧ id = h ∧ (w.Assign cid id).1.isSome = true then true
        else f c h) := by
  obtain ⟨hA, hB, hCm, hFr, hFr2, hP, hD, hE⟩ := hinv
  obtain ⟨hidx, _⟩ := hpre
  by_cases hmatch : (w.desc (GetEntityIndex id)).m_id = id
  · have hAssign := Assign_live w cid id hmatch
    have hfst : (w.Assign cid id).1.isSome = true := by rw [hAssign]; rfl
    have hsnd : (w.Assign cid id).2 = { w with
        m_componentPools := poolsAfter w.m_componentPools cid,
        m_entities := w.m_entities.set (GetEntityIndex id)
          ⟨id, insert cid (w.desc (GetEntityIndex id)).m_mask⟩ } := by rw [hAssign]
    have hlen' : (w.Assign cid id).2.m_entities.length = w.m_entities.length := by
      rw [hsnd]; simp
    have hdesc_self : (w.Assign cid id).2.desc (GetEntityIndex id) =
        ⟨id, insert cid (w.desc (GetEntityIndex id)).m_mask⟩ := by
      rw [hsnd]
      simp only [World.desc]
      exact getD_set_self _ _ _ _ hidx
    have hdesc_ne : ∀ j, j ≠ GetEntityIndex id →
        (w.Assign cid id).2.desc j = w.desc j := by
      intro j hj
      rw [hsnd]
      simp only [World.desc]
      exact getD_set_ne _ _ _ (Ne.symm hj)
    have hfree' : (w.Assign cid id).2.m_freeEntities = w.m_freeEntities := by
      rw [hsnd]
    have hpools' : (w.Assign cid id).2.m_componentPools =
        poolsAfter w.m_componentPools cid := by rw [hsnd]
    have hid_div : id / 2 ^ 32 = GetEntityIndex id := by
      rcases (hB (GetEntityIndex id) hidx).2 with hdiv | hdiv
      · rw [hmatch] at hdiv
        exact hdiv
      · exfalso
        rw [hmatch] at hdiv
        have h1 : GetEntityIndex id = (2 ^ 32 - 1) % 2 ^ 32 := by
          simp only [GetEntityIndex]
          omega
        have := MAX_eq
        omega
    refine ⟨?_, ?_, ?_, ?_, ?_, ?_, ?_, ?_⟩
    · rw [hlen']; exact hA
    · intro i hi
      rw [hlen'] at hi
      by_cases hij : i = GetEntityIndex id
      · subst hij
        rw [hdesc_self]
        have := hB (GetEntityIndex id) hi
        rw [hmatch] at this
        exact this
      · rw [hdesc_ne i hij]
        exact hB i hi
    · intro i hi hsent
      rw [hlen'] at hi
      by_cases hij : i = GetEntityIndex id
      · exfalso
        subst hij
        rw [hdesc_self] at hsent
        have hs : id / 2 ^ 32 = 2 ^ 32 - 1 := hsent
        rw [hid_div] at hs
        have := MAX_eq
        omega
      · rw [hdesc_ne i hij] at hsent ⊢
        exact hCm i hi hsent
    · intro e he
      rw [hfree'] at he
      exact hFr e he
    · intro hne
      rw [hfree'] at hne
      rw [hlen']
      exact hFr2 hne
    · intro i hi c hc
      rw [hlen'] at hi
      rw [hpools', getD_poolsAfter]
      by_cases hcc : c = cid
      · rw [if_pos hcc]
      · rw [if_neg hcc]
        by_cases hij : i = GetEntityIndex id
        · subst hij
          rw [hdesc_self] at hc
          rcases Finset.mem_insert.mp hc with hc' | hc'
          · exact absurd hc' hcc
          · exact hP _ hi c hc'
        · rw [hdesc_ne i hij] at hc
          exact hP i hi c hc
    · intro c h hf
      have hf' : (if cid = c ∧ id = h ∧ (w.Assign cid id).1.isSome = true then true
          else f c h) = true := hf
      rw [hlen']
      by_cases hcond : cid = c ∧ id = h ∧ (w.Assign cid id).1.isSome = true
      · obtain ⟨_, hh, _⟩ := hcond
        subst hh
        refine ⟨hidx, ?_⟩
        rw [hdesc_self]
      · rw [if_neg hcond] at hf'
        obtain ⟨hl1, hl2⟩ := hD c h hf'
        refine ⟨hl1, ?_⟩
        by_cases hij : GetEntityIndex h = GetEntityIndex id
        · rw [hij] at hl2
          have hhid : h = id := hmatch.symm.trans hl2 |>.symm
          subst hhid
          rw [hij, hdesc_self]
        · rw [hdesc_ne _ hij]
          exact hl2
    · intro c h hl1 hl2
      rw [hlen'] at hl1
      show c ∈ ((w.Assign cid id).2.desc (GetEntityIndex h)).m_mask ↔
        (if cid = c ∧ id = h ∧ (w.Assign cid id).1.isSome = true then true
          else f c h) = true
      by_cases hij : GetEntityIndex h = GetEntityIndex id
      · rw [hij, hdesc_self] at hl2
        have hhid : h = id := hl2.symm
        subst hhid
        rw [hij, hdesc_self]
        by_cases hcc : cid = c
        · rw [if_pos ⟨hcc, rfl, hfst⟩]
          subst hcc
          simp [Finset.mem_insert_self]
        · rw [if_neg (fun hp => hcc hp.1)]
          rw [Finset.mem_insert]
          constructor
          · intro hor
            rcases hor with hor | hor
            · exact absurd hor.symm hcc
            · exact (hE c h (hij ▸ hl1) hmatch).mp hor
          · intro hff
            exact Or.inr ((hE c h (hij ▸ hl1) hmatch).mpr hff)
      · rw [hdesc_ne _ hij] at hl2 ⊢
        have hne_id : ¬ (cid = c ∧ id = h ∧ (w.Assign cid id).1.isSome = true) := by
          rintro ⟨_, hh, _⟩
          subst hh
          exact hij rfl
        rw [if_neg hne_id]
        exact hE c h hl1 hl2
  · have hAssign : w.Assign cid id = (none, w) := by
      unfold World.Assign
      rw [if_pos hmatch]
    have hfeq : (fun c h =>
        if cid = c ∧ id = h ∧ (w.Assign cid id).1.isSome = true then true
        else f c h) = f := by
      funext c h
      rw [if_neg]
      rintro ⟨_, _, hs⟩
      rw [hAssign] at hs
      exact absurd hs (by simp)
    rw [hfeq]
    have hsnd : (w.Assign cid id).2 = w := by rw [hAssign]
    rw [hsnd]
    exact ⟨hA, hB, hCm, hFr, hFr2, hP, hD, hE⟩

theorem inv_step_removeC (w : World) (f : Nat → Nat → Bool) (cid id : Nat)
    (hpre : GetEntityIndex id < w.m_entities.length ∧ cid < MAX_COMPONENTS)
    (hinv : TraceInv w f) :
    TraceInv (w.Remove cid id)
      (fun c h => if cid = c ∧ id = h then false else f c h) := by
  obtain ⟨hA, hB, hCm, hFr, hFr2, hP, hD, hE⟩ := hinv
  obtain ⟨hidx, _⟩ := hpre
  by_cases hmatch : (w.desc (GetEntityIndex id)).m_id = id
  · obtain ⟨hent, hfree', hpools'⟩ := Remove_live w cid id hmatch
    have hlen' : (w.Remove cid id).m_entities.length = w.m_entities.length := by
      rw [hent]; simp
    have hdesc_self : (w.Remove cid id).desc (GetEntityIndex id) =
        ⟨id, (w.desc (GetEntityIndex id)).m_mask.erase cid⟩ := by
      simp only [World.desc, hent]
      exact getD_set_self _ _ _ _ hidx
    have hdesc_ne : ∀ j, j ≠ GetEntityIndex id →
        (w.Remove cid id).desc j = w.desc j := by
      intro j hj
      simp only [World.desc, hent]
      exact getD_set_ne _ _ _ (Ne.symm hj)
    refine ⟨?_, ?_, ?_, ?_, ?_, ?_, ?_, ?_⟩
    · rw [hlen']; exact hA
    · intro i hi
      rw [hlen'] at hi
      by_cases hij : i = GetEntityIndex id
      · subst hij
        rw [hdesc_self]
        have := hB (GetEntityIndex id) hi
        rw [hmatch] at this
        exact this
      · rw [hdesc_ne i hij]
        exact hB i hi
    · intro i hi hsent
      rw [hlen'] at hi
      by_cases hij : i = GetEntityIndex id
      · exfalso
        subst hij
        rw [hdesc_self] at hsent
        have hs : id / 2 ^ 32 = 2 ^ 32 - 1 := hsent
        rcases (hB (GetEntityIndex id) hi).2 with hdiv | hdiv
        · rw [hmatch, hs] at hdiv
          have := MAX_eq
          omega
        · rw [hmatch] at hdiv
          have h1 : GetEntityIndex id = (2 ^ 32 - 1) % 2 ^ 32 := by
            simp only [GetEntityIndex]
            omega
          have := MAX_eq
          omega
      · rw [hdesc_ne i hij] at hsent ⊢
        exact hCm i hi hsent
    · intro e he
      rw [hfree'] at he
      exact hFr e he
    · intro hne
      rw [hfree'] at hne
      rw [hlen']
      exact hFr2 hne
    · intro i hi c hc
      rw [hlen'] at hi
      rw [hpools']
      by_cases hij : i = GetEntityIndex id
      · subst hij
        rw [hdesc_self] at hc
        exact hP _ hi c (Finset.mem_of_mem_erase hc)
      · rw [hdesc_ne i hij] at hc
        exact hP i hi c hc
    · intro c h hf
      have hf' : (if cid = c ∧ id = h then false else f c h) = true := hf
      rw [hlen']
      by_cases hcond : cid = c ∧ id = h
      · rw [if_pos hcond] at hf'
        exact absurd hf' (by simp)
      · rw [if_neg hcond] at hf'
        obtain ⟨hl1, hl2⟩ := hD c h hf'
        refine ⟨hl1, ?_⟩
        by_cases hij : GetEntityIndex h = GetEntityIndex id
        · rw [hij] at hl2
          have hhid : h = id := hmatch.symm.trans hl2 |>.symm
          subst hhid
          rw [hij, hdesc_self]
        · rw [hdesc_ne _ hij]
          exact hl2
    · intro c h hl1 hl2
      rw [hlen'] at hl1
      show c ∈ ((w.Remove cid id).desc (GetEntityIndex h)).m_mask ↔
        (if cid = c ∧ id = h then false else f c h) = true
      by_cases hij : GetEntityIndex h = GetEntityIndex id
      · rw [hij, hdesc_self] at hl2
        have hhid : h = id := hl2.symm
        subst hhid
        rw [hij, hdesc_self]
        by_cases hcc : cid = c
        · rw [if_pos ⟨hcc, rfl⟩]
          subst hcc
          simp [Finset.mem_erase]
        · rw [if_neg (fun hp => hcc hp.1)]
          rw [Finset.mem_erase]
          constructor
          · intro hand
            exact (hE c h (hij ▸ hl1) hmatch).mp hand.2
          · intro hff
            exact ⟨fun heq => hcc heq.symm, (hE c h (hij ▸ hl1) hmatch).mpr hff⟩
      · rw [hdesc_ne _ hij] at hl2 ⊢
        have hne_id : ¬ (cid = c ∧ id = h) := by
          rintro ⟨_, hh⟩
          subst hh
          exact hij rfl
        rw [if_neg hne_id]
        exact hE c h hl1 hl2
  · rw [Remove_stale w cid id hmatch]
    refine ⟨hA, hB, hCm, hFr, hFr2, hP, ?_, ?_⟩
    · intro c h hf
      have hf' : (if cid = c ∧ id = h then false else f c h) = true := hf
      by_cases hcond : cid = c ∧ id = h
      · rw [if_pos hcond] at hf'
        exact absurd hf' (by simp)
      · rw [if_neg hcond] at hf'
        exact hD c h hf'
    · intro c h hl1 hl2
      show c ∈ (w.desc (GetEntityIndex h)).m_mask ↔
        (if cid = c ∧ id = h then false else f c h) = true
      by_cases hcond : cid = c ∧ id = h
      · exfalso
        obtain ⟨_, hh⟩ := hcond
        subst hh
        exact hmatch hl2
      · rw [if_neg hcond]
        exact hE c h hl1 hl2

theorem inv_run :
    ∀ (ops : List Op) (w : World) (f : Nat → Nat → Bool),
      TraceInv w f → WFb w ops = true →
      TraceInv (execFrom w ops) (fun c h => histFrom w c h (f c h) ops) := by
  intro ops
  induction ops with
  | nil => intro w f hinv _; exact hinv
  | cons op ops ih =>
    intro w f hinv hwf
    cases op with
    | newE =>
      rw [WFb, Bool.and_eq_true] at hwf
      exact ih (stepW w .newE) _
        (inv_step_newE w f (of_decide_eq_true hwf.1) hinv) hwf.2
    | destroyE id =>
      rw [WFb, Bool.and_eq_true] at hwf
      have hl : GetEntityIndex id < w.m_entities.length ∧
          (w.desc (GetEntityIndex id)).m_id = id := by
        have := hwf.1
        rw [liveb, Bool.and_eq_true] at this
        exact ⟨of_decide_eq_true this.1, by simpa using this.2⟩
      exact ih (stepW w (.destroyE id)) _ (inv_step_destroyE w f id hl hinv) hwf.2
    | assignC cid id =>
      rw [WFb, Bool.and_eq_true, Bool.and_eq_true] at hwf
      exact ih (stepW w (.assignC cid id)) _
        (inv_step_assignC w f cid id
          ⟨of_decide_eq_true hwf.1.1, of_decide_eq_true hwf.1.2⟩ hinv) hwf.2
    | removeC cid id =>
      rw [WFb, Bool.and_eq_true, Bool.and_eq_true] at hwf
      exact ih (stepW w (.removeC cid id)) _
        (inv_step_removeC w f cid id
          ⟨of_decide_eq_true hwf.1.1, of_decide_eq_true hwf.1.2⟩ hinv) hwf.2

theorem TraceInv_empty : TraceInv World.empty (fun _ _ => false) := by
  refine ⟨?_, ?_, ?_, ?_, ?_, ?_, ?_, ?_⟩
  · rw [MAX_eq]
    simp [World.empty]
  · intro i hi
    simp [World.empty] at hi
  · intro i hi
    simp [World.empty] at hi
  · intro e he
    simp [World.empty] at he
  · intro hne
    simp [World.empty] at hne
  · intro i hi
    simp [World.empty] at hi
  · intro c h' hf
    exact absurd hf (by simp)
  · intro c h' hl
    simp [World.empty] at hl

/-- Claim C4 (confirmed): along any well-formed trace from the empty world
(destroys only on live handles, in-bounds assign/remove arguments, component
ids below `MAX_COMPONENTS`, at most `MAX_ENTITIES` entities), for every
handle `h` that is currently live (its slot's stored handle equals `h`) and
every component id, `Has` is true exactly when the history flag is set: a
successful `Assign` for that pair occurred with no later
`Remove` of that pair and no later `DestroyEntity h`. -/
theorem has_iff_assigned_history (ops : List Op)
    (hwf : WFb World.empty ops = true) (componentId h : Nat)
    (hlive : GetEntityIndex h < (execFrom World.empty ops).m_entities.length ∧
      ((execFrom World.empty ops).desc (GetEntityIndex h)).m_id = h) :
    (execFrom World.empty ops).Has componentId h =
      histFrom World.empty componentId h false ops := by
  obtain ⟨hl1, hl2⟩ := hlive
  obtain ⟨hA, hB, hCm, hFr, hFr2, hP, hD, hE⟩ :=
    inv_run ops World.empty (fun _ _ => false) TraceInv_empty hwf
  have hiff := hE componentId h hl1 hl2
  cases hval : histFrom World.empty componentId h false ops with
  | false =>
    have hne : ¬ (execFrom World.empty ops).Has componentId h = true := by
      rw [Has_eq_true_iff]
      rintro ⟨hm, _⟩
      have hft : histFrom World.empty componentId h false ops = true := hiff.mp hm
      rw [hval] at hft
      exact absurd hft (by simp)
    rw [Bool.not_eq_true] at hne
    exact hne
  | true =>
    have hm : componentId ∈
        ((execFrom World.empty ops).desc (GetEntityIndex h)).m_mask := by
      apply hiff.mpr
      exact hval
    exact Has_eq_true_iff _ _ _ |>.mpr ⟨hm, hP (GetEntityIndex h) hl1 componentId hm⟩

/-- Witness for C4: the two-call trace `[NewEntity, Assign 0 (0,0)]`; the
handle `(0, 0)` is live at the end, `Has` is true and so is the history
flag. -/
theorem has_iff_assigned_history_witness :
    (execFrom World.empty [Op.newE, Op.assignC 0 0]).Has 0 (CreateEntityId 0 0) =
      histFrom World.empty 0 (CreateEntityId 0 0) false [Op.newE, Op.assignC 0 0] :=
  has_iff_assigned_history [Op.newE, Op.assignC 0 0] (by decide) 0
    (CreateEntityId 0 0) ⟨by decide, by decide⟩

end ECS
